import Mathlib

/-!
Shallow embedding of the task/team management backend (Express/MongoDB CRUD
application).  The definitions below are translated from the JavaScript
sources:

* `Project.model.js` (member list, `getMemberRole`, `isMember`),
* `Task.model.js` (pre-save hook: task numbering and completion tracking),
* `task.service.js` / `task.repository.js` (create/update/delete/get),
* `project.service.js` (`removeMember`, `updateMemberRole`),
* `user.service.js` / `user.repository.js` (`updateRole`, `deactivateUser`,
  `countByRole`),
* `Activity.model.js` (`Activity.log`),
* `search.service.js` (`globalSearch`, `_searchTasks`, `_searchProjects`,
  `_searchUsers`, `_searchComments`),
* `rbac.js` (`authorizeMinRole`).

MongoDB document ids are opaque tokens; we model them as `Nat`.  Dates are
modelled as `Nat` timestamps.  A document collection is a `List` of records
kept in insertion order.  Fields irrelevant to the verified claims (avatars,
labels, due dates, settings, timestamps the claims do not touch, ...) are
elided from the record types.
-/

abbrev UserId := Nat
abbrev ProjectId := Nat
abbrev TaskId := Nat
abbrev Time := Nat

/-- Global (system) roles, from `rbac.js` / `User.model.js`. -/
inductive SystemRole where
  | admin
  | member
  | viewer
deriving DecidableEq

/-- Per-project member roles; the schema enum in `Project.model.js` is
`['owner', 'admin', 'member', 'viewer']`. -/
inductive MemberRole where
  | owner
  | admin
  | member
  | viewer
deriving DecidableEq

/-- Project visibility (`private` is a Lean keyword, hence `priv`/`pub`). -/
inductive Visibility where
  | priv
  | pub
deriving DecidableEq

/-- Task statuses from `Task.model.js`. -/
inductive Status where
  | backlog
  | todo
  | inProgress
  | inReview
  | done
  | cancelled
deriving DecidableEq

/-- Task priorities from `Task.model.js`. -/
inductive Priority where
  | low
  | medium
  | high
  | urgent
deriving DecidableEq

/-- The `action` enum values of `Activity.model.js` used by the embedded
services. -/
inductive ActionType where
  | taskCreate
  | taskUpdate
  | taskDelete
  | taskStatusChange
  | taskAssign
  | taskUnassign
  | taskPriorityChange
  | projectMemberRemove
  | projectMemberRoleChange
  | userRoleChange
  | userDelete
deriving DecidableEq

/-- A `User` document (fields used by the claims). -/
structure UserRec where
  id : UserId
  role : SystemRole
  isActive : Bool
  firstName : String := ""
  lastName : String := ""
  email : String := ""
deriving DecidableEq

/-- One entry of `project.members` (the embedded `projectMemberSchema`). -/
structure MemberEntry where
  user : UserId
  role : MemberRole
deriving DecidableEq

/-- A `Project` document (fields used by the claims).  `taskCount` is an
`Int` because `deleteTask` decrements it with `$inc: -1` unconditionally. -/
structure Project where
  id : ProjectId
  name : String := ""
  description : String := ""
  key : String
  owner : UserId
  members : List MemberEntry
  visibility : Visibility
  taskCount : Int := 0
  updatedAt : Time := 0
deriving DecidableEq

/-- A `Task` document (fields used by the claims). -/
structure TaskDoc where
  id : TaskId
  title : String := ""
  description : String := ""
  taskNumber : String := ""
  project : ProjectId
  assignee : Option UserId := none
  status : Status := .todo
  priority : Priority := .medium
  completedAt : Option Time := none
  updatedAt : Time := 0
deriving DecidableEq

/-- A `Comment` document (fields used by `_searchComments`). -/
structure CommentRec where
  content : String
  isDeleted : Bool := false
  createdAt : Time := 0
deriving DecidableEq

/-- An `Activity` audit record (fields used by the claims; `changes`,
`metadata`, `ipAddress`, `userAgent` elided). -/
structure ActivityRec where
  action : ActionType
  actor : UserId
  entityType : String
  entityId : Nat
  project : Option ProjectId := none
deriving DecidableEq

/-- `ApiError` from `utils/ApiError.js`: an HTTP status code plus message. -/
structure ApiError where
  statusCode : Nat
  message : String
deriving DecidableEq

namespace ApiError

def badRequest (m : String) : ApiError := ⟨400, m⟩

def unauthorized (m : String) : ApiError := ⟨401, m⟩

def forbidden (m : String) : ApiError := ⟨403, m⟩

def notFound (m : String) : ApiError := ⟨404, m⟩

def conflict (m : String) : ApiError := ⟨409, m⟩

def internal (m : String) : ApiError := ⟨500, m⟩

end ApiError

/-- Status code of the error of a service result, `none` on success. -/
def errStatus {α : Type} : Except ApiError α → Option Nat
  | .error e => some e.statusCode
  | .ok _ => none

/-- The whole persistent store: one list per collection, insertion order. -/
structure AppDb where
  users : List UserRec := []
  projects : List Project := []
  tasks : List TaskDoc := []
  activities : List ActivityRec := []
  comments : List CommentRec := []
deriving DecidableEq

namespace Project

/-- `projectSchema.methods.isMember`: the owner or any listed member. -/
def isMember (p : Project) (userId : UserId) : Bool :=
  p.owner == userId || p.members.any (fun m => m.user == userId)

/-- `projectSchema.methods.getMemberRole`: `'owner'` for the owner, else the
role recorded in `members`, else `null`. -/
def getMemberRole (p : Project) (userId : UserId) : Option MemberRole :=
  if p.owner == userId then
    some .owner
  else
    (p.members.find? (fun m => m.user == userId)).map (fun m => m.role)

end Project

/-!  ### Decimal rendering

The pre-save hook builds `taskNumber` with a template literal
`` `${project.key}-${count + 1}` ``; `natToDec` is the decimal rendering of
the interpolated number.  The fuel argument makes the recursion structural;
`n + 1` units of fuel always suffice since the value shrinks by `/ 10`. -/

def decChar (d : Nat) : Char := Char.ofNat (48 + d)

def decRun : Nat → Nat → List Char
  | 0, _ => []
  | fuel + 1, n =>
    if n < 10 then [decChar n] else decRun fuel (n / 10) ++ [decChar (n % 10)]

def natToDec (n : Nat) : String := String.mk (decRun (n + 1) n)

/-- Reads a decimal digit string back; left inverse of the rendering. -/
def decVal (cs : List Char) : Nat :=
  cs.foldl (fun acc c => acc * 10 + (c.toNat - 48)) 0

/-- The task number string assigned by the pre-save hook given the current
per-project document count `count`: `` `${project.key}-${count + 1}` ``
with `n = count + 1`. -/
def mkTaskNumber (key : String) (n : Nat) : String :=
  key ++ "-" ++ natToDec n

/-!  ### Activity audit log

`Activity.log` in `Activity.model.js` is `this.create(data)` — a plain awaited
insert with no error handling of its own; no caller wraps it in try/catch.
The `ok` flag models whether the underlying insert succeeds; on failure the
rejection is the `ApiError` the caller's `await` rethrows. -/

def activityLog (ok : Bool) (a : ActivityRec) (db : AppDb) :
    Except ApiError AppDb :=
  if ok then
    .ok { db with activities := a :: db.activities }
  else
    .error (ApiError.internal "Activity insert failed")

/-!  ### `rbac.js` -/

/-- `roleHierarchy = [Roles.VIEWER, Roles.MEMBER, Roles.ADMIN]`. -/
def roleHierarchy : List SystemRole := [.viewer, .member, .admin]

/-- `authorizeMinRole(minimumRole)`: allowed iff the user's index in the
hierarchy is not below the required index. -/
def authorizeMinRole (minimumRole userRole : SystemRole) : Bool :=
  roleHierarchy.indexOf minimumRole ≤ roleHierarchy.indexOf userRole

/-!  ### Task pre-save hook (`Task.model.js`)

The hook has two independent parts: `isNew` task numbering (modelled inside
`TaskService.createTask`, which is the only path that inserts new task
documents) and completion tracking, which fires whenever `status` is a
modified path of the document being saved. -/

/-- The completion-tracking block of `taskSchema.pre('save')`. -/
def trackCompletion (statusModified : Bool) (now : Time) (t : TaskDoc) :
    TaskDoc :=
  if statusModified then
    if t.status == .done && t.completedAt == none then
      { t with completedAt := some now }
    else if t.status != .done then
      { t with completedAt := none }
    else t
  else t

/-- Document save after assigning `status`: mongoose marks the path modified
exactly when the assigned value differs from the loaded one. -/
def saveWithStatus (t : TaskDoc) (newStatus : Status) (now : Time) : TaskDoc :=
  trackCompletion (newStatus != t.status) now { t with status := newStatus }

/-!  ### `TaskService` (`task.service.js`) -/

/-- The incoming update payload of `TaskService.updateTask`.  The outer
`Option` is JavaScript field presence (`!== undefined`); for `assigneeId` the
inner `Option` is the null/non-null distinction. -/
structure TaskPatch where
  title : Option String := none
  status : Option Status := none
  assigneeId : Option (Option UserId) := none
  priority : Option Priority := none
deriving DecidableEq

/-- The `actionType` selection of `TaskService.updateTask`: three sequential
`if` blocks (status, then assignee, then priority), each overwriting the
variable initialised to `task.update`. -/
def determineActionType (task : TaskDoc) (u : TaskPatch) : ActionType :=
  let a := ActionType.taskUpdate
  let a := match u.status with
    | some st => if st != task.status then ActionType.taskStatusChange else a
    | none => a
  let a := match u.assigneeId with
    | some (some _) => if task.assignee == none then ActionType.taskAssign else a
    | some none => if task.assignee != none then ActionType.taskUnassign else a
    | none => a
  let a := match u.priority with
    | some pr => if pr != task.priority then ActionType.taskPriorityChange else a
    | none => a
  a

/-- `taskRepository.updateById` runs `findByIdAndUpdate`, which applies the
given fields directly and does NOT run the `pre('save')` hook, so
`completedAt` is untouched here. -/
def applyPatch (t : TaskDoc) (u : TaskPatch) : TaskDoc :=
  { t with
    title := u.title.getD t.title
    status := u.status.getD t.status
    assignee := match u.assigneeId with
      | some a => a
      | none => t.assignee
    priority := u.priority.getD t.priority }

/-- The input of `TaskService.createTask` (the destructured `taskData`). -/
structure CreateTaskInput where
  projectId : ProjectId
  title : String := ""
  description : String := ""
  assigneeId : Option UserId := none
  parentTaskId : Option TaskId := none
  status : Status := .todo
  priority : Priority := .medium
deriving DecidableEq

namespace TaskService

/-- `TaskService.createTask`: project lookup, access check
(`isMember || visibility === 'public'`), parent-task checks, then the insert,
whose `pre('save')` hook assigns `taskNumber = key-(count+1)` from the live
per-project document count, increments the project `taskCount`, and runs
completion tracking (every field of a new document is a modified path).
Finally `Activity.log` is awaited with no catch: on failure the insert is
kept but the error propagates. -/
def createTask (db : AppDb) (input : CreateTaskInput) (newId : TaskId)
    (reporterId : UserId) (now : Time) (activityOk : Bool) :
    AppDb × Except ApiError TaskDoc :=
  match db.projects.find? (fun p => p.id == input.projectId) with
  | none => (db, .error (ApiError.notFound "Project not found"))
  | some project =>
    if ¬ project.isMember reporterId ∧ project.visibility ≠ .pub then
      (db, .error (ApiError.forbidden "You do not have access to this project"))
    else
      let parentCheck : Option ApiError :=
        match input.parentTaskId with
        | none => none
        | some ptid =>
          match db.tasks.find? (fun t => t.id == ptid) with
          | none => some (ApiError.notFound "Parent task not found")
          | some pt =>
            if pt.project != input.projectId then
              some (ApiError.badRequest "Parent task must be in the same project")
            else none
      match parentCheck with
      | some e => (db, .error e)
      | none =>
        let count := (db.tasks.filter (fun t => t.project == input.projectId)).length
        let newTask :=
          trackCompletion true now
            { id := newId
              title := input.title
              description := input.description
              taskNumber := mkTaskNumber project.key (count + 1)
              project := input.projectId
              assignee := input.assigneeId
              status := input.status
              priority := input.priority
              completedAt := none
              updatedAt := now }
        let db1 :=
          { db with
            projects := db.projects.map (fun p =>
              if p.id == input.projectId then
                { p with taskCount := p.taskCount + 1 }
              else p)
            tasks := db.tasks ++ [newTask] }
        match activityLog activityOk
            ⟨.taskCreate, reporterId, "task", newId, some input.projectId⟩ db1 with
        | .ok db2 => (db2, .ok newTask)
        | .error e => (db1, .error e)

/-- `TaskService.getTaskById`: lookup only — no visibility or role check;
the `userId` parameter is accepted and ignored, as in the source. -/
def getTaskById (db : AppDb) (taskId : TaskId) (_userId : UserId) :
    Except ApiError TaskDoc :=
  match db.tasks.find? (fun t => t.id == taskId) with
  | none => .error (ApiError.notFound "Task not found")
  | some task => .ok task

/-- `TaskService.updateTask`: lookup, action-type selection,
`findByIdAndUpdate`, then the awaited `Activity.log` (no catch; on failure
the update is kept but the error propagates).  No permission check. -/
def updateTask (db : AppDb) (taskId : TaskId) (u : TaskPatch) (userId : UserId)
    (activityOk : Bool) : AppDb × Except ApiError TaskDoc :=
  match db.tasks.find? (fun t => t.id == taskId) with
  | none => (db, .error (ApiError.notFound "Task not found"))
  | some task =>
    let actionType := determineActionType task u
    let updatedTask := applyPatch task u
    let db1 :=
      { db with
        tasks := db.tasks.map (fun t => if t.id == taskId then applyPatch t u else t) }
    match activityLog activityOk
        ⟨actionType, userId, "task", taskId, some task.project⟩ db1 with
    | .ok db2 => (db2, .ok updatedTask)
    | .error e => (db1, .error e)

/-- `TaskService.deleteTask`: lookup, `findByIdAndDelete`, `$inc` of the
project `taskCount` by `-1`, then the awaited `Activity.log`.  No permission
check. -/
def deleteTask (db : AppDb) (taskId : TaskId) (userId : UserId)
    (activityOk : Bool) : AppDb × Except ApiError Unit :=
  match db.tasks.find? (fun t => t.id == taskId) with
  | none => (db, .error (ApiError.notFound "Task not found"))
  | some task =>
    let db1 :=
      { db with
        tasks := db.tasks.filter (fun t => t.id != taskId)
        projects := db.projects.map (fun p =>
          if p.id == task.project then { p with taskCount := p.taskCount - 1 } else p) }
    match activityLog activityOk
        ⟨.taskDelete, userId, "task", taskId, some task.project⟩ db1 with
    | .ok db2 => (db2, .ok ())
    | .error e => (db1, .error e)

end TaskService

/-!  ### `ProjectService` (`project.service.js`) -/

namespace ProjectService

/-- `ProjectService.removeMember`: project lookup, permission gate
(owner/admin or self-removal), owner-removal guard, membership check, and the
`$pull`.  Note the gate runs BEFORE the owner guard. -/
def removeMember (db : AppDb) (projectId : ProjectId) (memberId : UserId)
    (actorId : UserId) (activityOk : Bool) : AppDb × Except ApiError Project :=
  match db.projects.find? (fun p => p.id == projectId) with
  | none => (db, .error (ApiError.notFound "Project not found"))
  | some project =>
    let actorRole := project.getMemberRole actorId
    let isSelfRemoval := actorId == memberId
    if ¬ isSelfRemoval ∧ project.owner ≠ actorId ∧ actorRole ≠ some .admin then
      (db, .error (ApiError.forbidden "Only project owner or admins can remove members"))
    else if project.owner == memberId then
      (db, .error (ApiError.badRequest "Cannot remove the project owner"))
    else if ¬ project.isMember memberId then
      (db, .error (ApiError.notFound "User is not a member of this project"))
    else
      let updated := { project with
        members := project.members.filter (fun m => m.user != memberId) }
      let db1 := { db with
        projects := db.projects.map (fun p => if p.id == projectId then updated else p) }
      match activityLog activityOk
          ⟨.projectMemberRemove, actorId, "project", projectId, some projectId⟩ db1 with
      | .ok db2 => (db2, .ok updated)
      | .error e => (db1, .error e)

/-- `ProjectService.updateMemberRole`: only the owner may change roles; the
owner's own role can never be changed.  (The source message for the owner
guard contains an apostrophe, elided here.) -/
def updateMemberRole (db : AppDb) (projectId : ProjectId) (memberId : UserId)
    (newRole : MemberRole) (actorId : UserId) (activityOk : Bool) :
    AppDb × Except ApiError Project :=
  match db.projects.find? (fun p => p.id == projectId) with
  | none => (db, .error (ApiError.notFound "Project not found"))
  | some project =>
    if project.owner ≠ actorId then
      (db, .error (ApiError.forbidden "Only the project owner can change member roles"))
    else if project.owner == memberId then
      (db, .error (ApiError.badRequest "Cannot change the project owner role"))
    else
      match project.members.find? (fun m => m.user == memberId) with
      | none => (db, .error (ApiError.notFound "User is not a member of this project"))
      | some _ =>
        let updated := { project with
          members := project.members.map (fun m =>
            if m.user == memberId then { m with role := newRole } else m) }
        let db1 := { db with
          projects := db.projects.map (fun p => if p.id == projectId then updated else p) }
        match activityLog activityOk
            ⟨.projectMemberRoleChange, actorId, "project", projectId, some projectId⟩ db1 with
        | .ok db2 => (db2, .ok updated)
        | .error e => (db1, .error e)

end ProjectService

/-!  ### `UserService` (`user.service.js`, `user.repository.js`) -/

/-- The `admin` field of `userRepository.countByRole()`: the aggregation
matches `isActive: true` and groups by role, so the field is absent
(JavaScript `undefined`) when no active admin exists, else the count. -/
def countByRoleAdmin (users : List UserRec) : Option Nat :=
  let c := (users.filter (fun u => u.isActive && u.role == .admin)).length
  if c = 0 then none else some c

/-- JavaScript `x <= n` where `x` may be `undefined`: any comparison with
`undefined` is false. -/
def jsLeqOpt (x : Option Nat) (n : Nat) : Bool :=
  match x with
  | none => false
  | some c => c ≤ n

/-- Number of active admin users (the quantity the aggregation reports). -/
def countActiveAdmins (users : List UserRec) : Nat :=
  (users.filter (fun u => u.isActive && u.role == .admin)).length

namespace UserService

/-- `UserService.updateRole`: lookup, last-admin guard
(`roleCounts.admin <= 1` → `ApiError.badRequest`), then the role update and
the awaited `Activity.log`. -/
def updateRole (db : AppDb) (userId : UserId) (newRole : SystemRole)
    (actorId : UserId) (activityOk : Bool) : AppDb × Except ApiError UserRec :=
  match db.users.find? (fun u => u.id == userId) with
  | none => (db, .error (ApiError.notFound "User not found"))
  | some user =>
    if user.role = .admin ∧ newRole ≠ .admin ∧
        jsLeqOpt (countByRoleAdmin db.users) 1 then
      (db, .error (ApiError.badRequest "Cannot demote the last admin user"))
    else
      let updated := { user with role := newRole }
      let db1 := { db with
        users := db.users.map (fun u =>
          if u.id == userId then { u with role := newRole } else u) }
      match activityLog activityOk
          ⟨.userRoleChange, actorId, "user", userId, none⟩ db1 with
      | .ok db2 => (db2, .ok updated)
      | .error e => (db1, .error e)

/-- `UserService.deactivateUser`: lookup, last-admin guard (for any admin
target: `roleCounts.admin <= 1` → `ApiError.badRequest`), then the soft
delete and the awaited `Activity.log`. -/
def deactivateUser (db : AppDb) (userId : UserId) (actorId : UserId)
    (activityOk : Bool) : AppDb × Except ApiError Unit :=
  match db.users.find? (fun u => u.id == userId) with
  | none => (db, .error (ApiError.notFound "User not found"))
  | some user =>
    if user.role = .admin ∧ jsLeqOpt (countByRoleAdmin db.users) 1 then
      (db, .error (ApiError.badRequest "Cannot deactivate the last admin user"))
    else
      let db1 := { db with
        users := db.users.map (fun u =>
          if u.id == userId then { u with isActive := false } else u) }
      match activityLog activityOk
          ⟨.userDelete, actorId, "user", userId, none⟩ db1 with
      | .ok db2 => (db2, .ok ())
      | .error e => (db1, .error e)

end UserService

/-!  ### `SearchService` (`search.service.js`)

`globalSearch` builds `new RegExp(query, 'i')` — the raw query string is
compiled as a JavaScript regular expression with no metacharacter escaping —
and hands it to the per-entity helpers.  We embed the semantics of the
RegExp fragment the claims exercise: literal characters, the `.` wildcard,
top-level alternation `|`, and a leading `^` anchor per alternative, with
the `i` flag lowering both pattern and subject. -/

/-- Does the pattern fragment `p` match a prefix of `s`?  `.` matches any
single character; other pattern characters match themselves. -/
def reHere : List Char → List Char → Bool
  | [], _ => true
  | _ :: _, [] => false
  | p :: ps, c :: cs => (p == '.' || p == c) && reHere ps cs

/-- Unanchored search: does the fragment match starting anywhere in `s`?
(`RegExp.prototype.test` / MongoDB `$regex` are substring searches.) -/
def reSearch : List Char → List Char → Bool
  | p, [] => reHere p []
  | p, c :: cs => reHere p (c :: cs) || reSearch p cs

/-- One `|`-alternative: a leading `^` anchors the match at the start. -/
def reBranch (b : List Char) (s : List Char) : Bool :=
  match b with
  | '^' :: rest => reHere rest s
  | _ => reSearch b s

/-- Split a pattern at every `|` (our fragment has no groups, so every `|`
is top-level). -/
def splitBar : List Char → List (List Char)
  | [] => [[]]
  | c :: cs =>
    if c == '|' then
      [] :: splitBar cs
    else
      match splitBar cs with
      | [] => [[c]]
      | b :: bs => (c :: b) :: bs

/-- `new RegExp(query, 'i').test(s)` for the embedded fragment: some
alternative matches, case-insensitively. -/
def jsRegexTest (query s : String) : Bool :=
  (splitBar (query.data.map Char.toLower)).any
    (fun b => reBranch b (s.data.map Char.toLower))

/-- Literal character-list prefix test (no wildcard semantics). -/
def litHere : List Char → List Char → Bool
  | [], _ => true
  | _ :: _, [] => false
  | a :: as, b :: bs => a == b && litHere as bs

/-- Literal character-list substring test. -/
def litSub : List Char → List Char → Bool
  | q, [] => litHere q []
  | q, c :: cs => litHere q (c :: cs) || litSub q cs

/-- Case-insensitive literal substring containment — the matching the
specification describes.  Comparison definition for the refinement in claim
C10; this is deliberately NOT a translation of the code. -/
def literalContains (query s : String) : Bool :=
  litSub (query.data.map Char.toLower) (s.data.map Char.toLower)

/-- Insertion into a list sorted by `updatedAt` descending. -/
def insertByUpdatedDesc (t : TaskDoc) : List TaskDoc → List TaskDoc
  | [] => [t]
  | x :: xs =>
    if x.updatedAt ≤ t.updatedAt then t :: x :: xs
    else x :: insertByUpdatedDesc t xs

/-- `.sort({ updatedAt: -1 })` on a task cursor. -/
def sortTasksByUpdatedDesc : List TaskDoc → List TaskDoc
  | [] => []
  | x :: xs => insertByUpdatedDesc x (sortTasksByUpdatedDesc xs)

def insertProjByUpdatedDesc (p : Project) : List Project → List Project
  | [] => [p]
  | x :: xs =>
    if x.updatedAt ≤ p.updatedAt then p :: x :: xs
    else x :: insertProjByUpdatedDesc p xs

/-- `.sort({ updatedAt: -1 })` on a project cursor. -/
def sortProjectsByUpdatedDesc : List Project → List Project
  | [] => []
  | x :: xs => insertProjByUpdatedDesc x (sortProjectsByUpdatedDesc xs)

namespace SearchService

/-- `SearchService._searchTasks`: match title, description or task number
against the regex; sort newest first; cap at `limit`.  Note: no user
argument — the task branch applies no visibility or membership filter. -/
def searchTasks (tasks : List TaskDoc) (query : String) (limit : Nat) :
    List TaskDoc :=
  (sortTasksByUpdatedDesc (tasks.filter (fun t =>
    jsRegexTest query t.title || jsRegexTest query t.description ||
      jsRegexTest query t.taskNumber))).take limit

/-- `SearchService._searchProjects`: match name, description or key, AND
restrict to projects the searcher may see (public, owned, or member-of). -/
def searchProjects (projects : List Project) (query : String) (limit : Nat)
    (userId : UserId) : List Project :=
  (sortProjectsByUpdatedDesc (projects.filter (fun p =>
    (jsRegexTest query p.name || jsRegexTest query p.description ||
      jsRegexTest query p.key) &&
      (p.visibility == .pub || p.owner == userId ||
        p.members.any (fun m => m.user == userId))))).take limit

/-- `SearchService._searchUsers`: active users matching first/last name or
email. -/
def searchUsers (users : List UserRec) (query : String) (limit : Nat) :
    List UserRec :=
  ((users.filter (fun u =>
    u.isActive && (jsRegexTest query u.firstName || jsRegexTest query u.lastName ||
      jsRegexTest query u.email)))).take limit

/-- `SearchService._searchComments`: non-deleted comments matching content. -/
def searchComments (comments : List CommentRec) (query : String) (limit : Nat) :
    List CommentRec :=
  (comments.filter (fun c => jsRegexTest query c.content && !c.isDeleted)).take limit

end SearchService

/-- The `scope` option of `globalSearch`. -/
inductive SearchScope where
  | all
  | tasks
  | projects
  | users
  | comments
deriving DecidableEq

/-- The `results` object: a field is present exactly when its branch ran. -/
structure SearchResults where
  tasks : Option (List TaskDoc) := none
  projects : Option (List Project) := none
  users : Option (List UserRec) := none
  comments : Option (List CommentRec) := none
deriving DecidableEq

/-- The value returned by `globalSearch`. -/
structure GlobalSearchOutcome where
  query : String
  totalCount : Nat
  results : SearchResults
deriving DecidableEq

namespace SearchService

/-- `SearchService.globalSearch`: run the branches selected by `scope`
(the task and user branches never receive `userId`; only the project branch
does) and count the returned entries. -/
def globalSearch (db : AppDb) (query : String) (scope : SearchScope)
    (limit : Nat) (userId : UserId) : GlobalSearchOutcome :=
  let results : SearchResults :=
    { tasks :=
        if scope == .all || scope == .tasks then
          some (searchTasks db.tasks query limit)
        else none
      projects :=
        if scope == .all || scope == .projects then
          some (searchProjects db.projects query limit userId)
        else none
      users :=
        if scope == .all || scope == .users then
          some (searchUsers db.users query limit)
        else none
      comments :=
        if scope == .all || scope == .comments then
          some (searchComments db.comments query limit)
        else none }
  { query := query
    totalCount :=
      (results.tasks.getD []).length + (results.projects.getD []).length +
        (results.users.getD []).length + (results.comments.getD []).length
    results := results }

end SearchService

/-!  ### Claim-specific helper definitions -/

/-- Branch predicate of `updateTask`: the patch carries a `status` different
from the stored one. -/
def statusChangesB (t : TaskDoc) (u : TaskPatch) : Bool :=
  match u.status with
  | some st => st != t.status
  | none => false

/-- Branch result of the assignee block of `updateTask`: the tag it would
write, if any. -/
def assignTag (t : TaskDoc) (u : TaskPatch) : Option ActionType :=
  match u.assigneeId with
  | some (some _) => if t.assignee == none then some .taskAssign else none
  | some none => if t.assignee != none then some .taskUnassign else none
  | none => none

/-- Branch predicate of `updateTask`: the patch carries a `priority`
different from the stored one. -/
def priorityChangesB (t : TaskDoc) (u : TaskPatch) : Bool :=
  match u.priority with
  | some pr => pr != t.priority
  | none => false

/-- The spec side of claim C10: task search by case-insensitive literal
substring containment (same shape as `SearchService.searchTasks` but with
literal matching).  NOT a translation of the code. -/
def literalSearchTasks (tasks : List TaskDoc) (query : String) (limit : Nat) :
    List TaskDoc :=
  (sortTasksByUpdatedDesc (tasks.filter (fun t =>
    literalContains query t.title || literalContains query t.description ||
      literalContains query t.taskNumber))).take limit

/-- Creation payload used when driving repeated `createTask` calls. -/
def stdInput (pid : ProjectId) : CreateTaskInput :=
  { projectId := pid, title := "T" }

/-- A fresh project document (no members, private, zero counters). -/
def freshProj (pid : ProjectId) (key : String) (ownerId : UserId) : Project :=
  { id := pid, key := key, owner := ownerId, members := [],
    visibility := .priv }

/-- A store holding exactly one fresh project and nothing else. -/
def freshDb (pid : ProjectId) (key : String) (ownerId : UserId) : AppDb :=
  { projects := [freshProj pid key ownerId] }

/-- `n` sequential `TaskService.createTask` calls by the project owner, with
document ids `idBase`, `idBase+1`, .... -/
def createN (pid : ProjectId) (idBase : Nat) (reporterId : UserId) (now : Time)
    (db : AppDb) : Nat → AppDb
  | 0 => db
  | n + 1 =>
    (TaskService.createTask (createN pid idBase reporterId now db n)
      (stdInput pid) (idBase + n) reporterId now true).1

/-- The task document produced by the `i`-th (0-based) sequential creation. -/
def mkCreatedTask (pid : ProjectId) (idBase : Nat) (key : String) (now : Time)
    (i : Nat) : TaskDoc :=
  { id := idBase + i
    title := "T"
    description := ""
    taskNumber := mkTaskNumber key (i + 1)
    project := pid
    assignee := none
    status := .todo
    priority := .medium
    completedAt := none
    updatedAt := now }

/-- The audit record appended by the `i`-th sequential creation. -/
def mkCreateActivity (pid : ProjectId) (idBase : Nat) (reporterId : UserId)
    (i : Nat) : ActivityRec :=
  ⟨.taskCreate, reporterId, "task", idBase + i, some pid⟩

/-- Concrete fixture: a private project owned by user 1 with no members. -/
def cProjPriv : Project :=
  { id := 1, key := "PRJ", owner := 1, members := [], visibility := .priv }

/-- Concrete fixture: a task of `cProjPriv`. -/
def cTask : TaskDoc := { id := 10, project := 1 }

/-- Concrete fixture: store with `cProjPriv` and `cTask`. -/
def cDb : AppDb := { projects := [cProjPriv], tasks := [cTask] }

/-- Concrete fixture: a patch that only retitles. -/
def cPatchTitle : TaskPatch := { title := some "new" }

/-- Concrete fixture: store whose only user is one active admin. -/
def cAdminDb : AppDb :=
  { users := [{ id := 1, role := .admin, isActive := true }] }

/-- Concrete fixture: store with two active admins. -/
def cTwoAdminDb : AppDb :=
  { users := [{ id := 1, role := .admin, isActive := true },
      { id := 2, role := .admin, isActive := true }] }

/-- Concrete fixture: a private project owned by user 1 with a viewer
member 2. -/
def cOwnedProj : Project :=
  { id := 1, key := "PRJ", owner := 1, members := [⟨2, .viewer⟩],
    visibility := .priv }

/-- Concrete fixture: store holding `cOwnedProj`. -/
def cProjDb : AppDb := { projects := [cOwnedProj] }

/-- Concrete fixture: a private project named "secret plans". -/
def secretProj : Project :=
  { id := 1, name := "secret plans", key := "SEC", owner := 1, members := [],
    visibility := .priv }

/-- Concrete fixture: a task of the private `secretProj`. -/
def secretTask : TaskDoc := { id := 10, title := "secret launch", project := 1 }

/-- Concrete fixture: store for the search claims. -/
def searchDb : AppDb := { projects := [secretProj], tasks := [secretTask] }

/-- Concrete fixture: a task titled `"abc"`. -/
def reTaskAbc : TaskDoc := { id := 1, title := "abc", project := 1 }

/-- Concrete fixture: a task titled `"b^a"`. -/
def reTaskCaret : TaskDoc := { id := 2, title := "b^a", project := 1 }

/-- Concrete fixture: a task titled `"only x here"`. -/
def reTaskX : TaskDoc := { id := 3, title := "only x here", project := 1 }

/-- Concrete fixture: a task in `done` with `completedAt` set. -/
def cDoneTask : TaskDoc :=
  { id := 11, project := 1, status := .done, completedAt := some 3 }

/-- Concrete fixture: a fresh `todo` task. -/
def cTodoTask : TaskDoc := { id := 12, project := 1, status := .todo }

/-!  ## Theorems -/

theorem decChar_toNat {d : Nat} (h : d < 10) : (decChar d).toNat = 48 + d := by
  interval_cases d <;> rfl

theorem decVal_decRun : ∀ fuel n, n < fuel → decVal (decRun fuel n) = n := by
  intro fuel
  induction fuel with
  | zero => intro n h; omega
  | succ fuel ih =>
    intro n h
    by_cases h10 : n < 10
    · simp only [decRun, if_pos h10, decVal, List.foldl_cons, List.foldl_nil,
        decChar_toNat h10]
      omega
    · have hdiv : n / 10 < fuel := by omega
      have hmod : n % 10 < 10 := Nat.mod_lt _ (by omega)
      simp only [decRun, if_neg h10, decVal, List.foldl_append, List.foldl_cons,
        List.foldl_nil]
      have := ih (n / 10) hdiv
      simp only [decVal] at this
      rw [this, decChar_toNat hmod]
      omega

theorem natToDec_injective : Function.Injective natToDec := by
  intro m n h
  have hd : decRun (m + 1) m = decRun (n + 1) n := congrArg String.data h
  have := congrArg decVal hd
  rwa [decVal_decRun _ _ (Nat.lt_succ_self m),
    decVal_decRun _ _ (Nat.lt_succ_self n)] at this

theorem mkTaskNumber_injective (key : String) :
    Function.Injective (mkTaskNumber key) := by
  intro a b h
  have hdata := congrArg String.data h
  simp only [mkTaskNumber, String.data_append] at hdata
  have h2 := List.append_cancel_left hdata
  exact natToDec_injective (congrArg String.mk h2)

theorem find?_member_of_nodup {l : List MemberEntry} {m : MemberEntry}
    {u : UserId} (hnd : (l.map MemberEntry.user).Nodup) (hm : m ∈ l)
    (hu : m.user = u) :
    l.find? (fun x => x.user == u) = some m := by
  induction l with
  | nil => cases hm
  | cons h t ih =>
    rcases List.mem_cons.mp hm with rfl | hmt
    · simp [List.find?_cons, hu]
    · have hhu : (h.user == u) = false := by
        have hnotin : h.user ∉ t.map MemberEntry.user :=
          (List.nodup_cons.mp hnd).1
        have : m.user ∈ t.map MemberEntry.user := List.mem_map_of_mem _ hmt
        rw [hu] at this
        simp only [beq_eq_false_iff_ne, ne_eq]
        intro hcontra
        exact hnotin (hcontra ▸ this)
      simp only [List.find?_cons, hhu]
      exact ih (List.nodup_cons.mp hnd).2 hmt

/-- C7: role resolution.  For a project whose member list satisfies the
data-model invariants (no user listed twice, and no member entry storing the
role `owner`, which every member-write path's validator enforces),
`getMemberRole` returns `owner` iff the user is the project owner; otherwise
it returns exactly the role stored for the user in `members`, and `none`
when the user is neither the owner nor listed. -/
theorem claim_C7_role_resolution (p : Project) (u : UserId)
    (hroles : ∀ m ∈ p.members, m.role ≠ MemberRole.owner)
    (hnd : (p.members.map MemberEntry.user).Nodup) :
    (p.getMemberRole u = some MemberRole.owner ↔ u = p.owner)
    ∧ (∀ m ∈ p.members, u ≠ p.owner → m.user = u →
        p.getMemberRole u = some m.role)
    ∧ (u ≠ p.owner → (∀ m ∈ p.members, m.user ≠ u) →
        p.getMemberRole u = none) := by
  refine ⟨⟨fun h => ?_, fun h => ?_⟩, fun m hm hne hu => ?_, fun hne hall => ?_⟩
  · by_contra hne
    have hbeq : (p.owner == u) = false := by
      simp only [beq_eq_false_iff_ne, ne_eq]
      exact fun hc => hne hc.symm
    simp only [Project.getMemberRole, hbeq, Bool.false_eq_true, if_false] at h
    rcases Option.map_eq_some'.mp h with ⟨m, hfind, hrole⟩
    exact hroles m (List.mem_of_find?_eq_some hfind) hrole
  · simp [Project.getMemberRole, h]
  · have hbeq : (p.owner == u) = false := by
      simp only [beq_eq_false_iff_ne, ne_eq]
      exact fun hc => hne hc.symm
    simp only [Project.getMemberRole, hbeq, Bool.false_eq_true, if_false]
    rw [find?_member_of_nodup hnd hm hu]
    rfl
  · have hbeq : (p.owner == u) = false := by
      simp only [beq_eq_false_iff_ne, ne_eq]
      exact fun hc => hne hc.symm
    simp only [Project.getMemberRole, hbeq, Bool.false_eq_true, if_false]
    rw [List.find?_eq_none.mpr]
    · rfl
    · intro x hx
      simp only [beq_eq_false_iff_ne, ne_eq, beq_iff_eq]
      exact hall x hx

/-- C7 witness: the theorem applied to `cOwnedProj` (owner 1, one viewer
member 2). -/
theorem claim_C7_role_resolution_witness :
    cOwnedProj.getMemberRole 1 = some MemberRole.owner
    ∧ cOwnedProj.getMemberRole 2 = some MemberRole.viewer
    ∧ cOwnedProj.getMemberRole 3 = none := by
  have h1 := claim_C7_role_resolution cOwnedProj 1 (by decide) (by decide)
  have h2 := claim_C7_role_resolution cOwnedProj 2 (by decide) (by decide)
  have h3 := claim_C7_role_resolution cOwnedProj 3 (by decide) (by decide)
  refine ⟨h1.1.mpr rfl, ?_, ?_⟩
  · exact h2.2.1 ⟨2, .viewer⟩ (by decide) (by decide) rfl
  · exact h3.2.2 (by decide) (by decide)

/-- C8: completion tracking in the `pre('save')` hook.  Saving a task after
assigning a new status: entering `done` sets `completedAt := now` when it was
unset; leaving `done` clears it; re-saving `done` with `completedAt` already
set leaves it unchanged. -/
theorem claim_C8_completion_tracking (t : TaskDoc) (s' : Status) (now : Time) :
    (t.status ≠ .done → t.completedAt = none →
      (saveWithStatus t .done now).completedAt = some now)
    ∧ (t.status = .done → s' ≠ .done →
      (saveWithStatus t s' now).completedAt = none)
    ∧ (∀ x, t.status = .done → t.completedAt = some x →
      (saveWithStatus t .done now).completedAt = some x) := by
  refine ⟨fun h1 h2 => ?_, fun h1 h2 => ?_, fun x h1 h2 => ?_⟩
  · have hb : (Status.done != t.status) = true := by
      simp only [bne_iff_ne, ne_eq]
      exact fun hc => h1 hc.symm
    simp [saveWithStatus, trackCompletion, hb, h2]
  · have hb : (s' != t.status) = true := by
      simp only [bne_iff_ne, ne_eq, h1]
      exact h2
    have hs : (s' == Status.done) = false := by
      simp only [beq_eq_false_iff_ne, ne_eq]
      exact h2
    simp only [saveWithStatus, trackCompletion, hb, if_true]
    simp [hs, bne, h2]
  · have hb : (Status.done != t.status) = false := by
      simp [bne, h1]
    simp [saveWithStatus, trackCompletion, hb, h2]

/-- C8 witness: the theorem applied to a fresh `todo` task and to a `done`
task with `completedAt = some 3`. -/
theorem claim_C8_completion_tracking_witness :
    (saveWithStatus cTodoTask .done 5).completedAt = some 5
    ∧ (saveWithStatus cDoneTask .inProgress 5).completedAt = none
    ∧ (saveWithStatus cDoneTask .done 9).completedAt = some 3 := by
  refine ⟨?_, ?_, ?_⟩
  · exact (claim_C8_completion_tracking cTodoTask .done 5).1 (by decide) rfl
  · exact (claim_C8_completion_tracking cDoneTask .inProgress 5).2.1 rfl (by decide)
  · exact (claim_C8_completion_tracking cDoneTask .done 9).2.2 3 rfl rfl

/-- C3 counterexample: a patch that assigns a user (task currently
unassigned) AND changes the priority is tagged `task.priority_change`, not
`task.assign` — the priority block runs last and overwrites the tag. -/
theorem claim_C3_priority_order_cex :
    determineActionType
      { id := 1, project := 1, assignee := none, status := .todo,
        priority := .low }
      { assigneeId := some (some 5), priority := some .high }
      = .taskPriorityChange
    ∧ ActionType.taskPriorityChange ≠ ActionType.taskAssign := by
  exact ⟨rfl, by decide⟩

/-- C3 amended: the three tag blocks run in source order status → assignee →
priority, each overwriting the previous tag, so the EFFECTIVE precedence is
priority-change > assignment-change > status-change > generic update (a patch
changing status and assignee is tagged assign/unassign; a patch changing
assignee and priority is tagged priority_change). -/
theorem claim_C3_priority_order_amended (t : TaskDoc) (u : TaskPatch) :
    determineActionType t u =
      if priorityChangesB t u then .taskPriorityChange
      else
        match assignTag t u with
        | some a => a
        | none =>
          if statusChangesB t u then .taskStatusChange else .taskUpdate := by
  rcases u with ⟨title, status, assigneeId, priority⟩
  simp only [determineActionType, statusChangesB, assignTag, priorityChangesB]
  rcases priority with _ | pr <;>
    rcases assigneeId with _ | (_ | a) <;>
      rcases status with _ | st <;>
        cases t.assignee <;>
          simp

/-- C10: the query string is compiled directly into a case-insensitive
regular expression (no metacharacter escaping), so the task-search results
differ from case-insensitive literal-substring matching: `"a.c"` returns a
task titled `"abc"` (not a literal match), `"x|y"` returns a task titled
`"only x here"`, while `"^a"` misses a task titled `"b^a"` that literally
contains the query; matching is case-insensitive (`"A.C"` also hits). -/
theorem claim_C10_regex_vs_literal :
    SearchService.searchTasks [reTaskAbc] "a.c" 10 = [reTaskAbc]
    ∧ literalSearchTasks [reTaskAbc] "a.c" 10 = []
    ∧ SearchService.searchTasks [reTaskX] "x|y" 10 = [reTaskX]
    ∧ literalSearchTasks [reTaskX] "x|y" 10 = []
    ∧ SearchService.searchTasks [reTaskCaret] "^a" 10 = []
    ∧ literalSearchTasks [reTaskCaret] "^a" 10 = [reTaskCaret]
    ∧ SearchService.searchTasks [reTaskAbc] "A.C" 10 = [reTaskAbc] := by
  refine ⟨?_, ?_, ?_, ?_, ?_, ?_, ?_⟩ <;> rfl

/-- C9: the task branch of global search is user-independent.  For any store
and query, two distinct searchers get identical task results (the task
branch never receives the user, unlike the project branch); concretely, a
task of a private project is returned to a searcher with no resolved role in
that project, while the project branch withholds the project itself from the
same searcher yet returns it to the owner. -/
theorem claim_C9_task_search_unfiltered :
    (∀ (db : AppDb) (q : String) (lim : Nat) (u₁ u₂ : UserId),
      (SearchService.globalSearch db q .tasks lim u₁).results.tasks
        = (SearchService.globalSearch db q .tasks lim u₂).results.tasks)
    ∧ (SearchService.globalSearch searchDb "secret" .tasks 10 99).results.tasks
        = some [secretTask]
    ∧ secretProj.getMemberRole 99 = none
    ∧ secretProj.visibility = .priv
    ∧ secretTask.project = secretProj.id
    ∧ (SearchService.globalSearch searchDb "secret" .projects 10 99).results.projects
        = some []
    ∧ (SearchService.globalSearch searchDb "secret" .projects 10 1).results.projects
        = some [secretProj] := by
  refine ⟨fun db q lim u₁ u₂ => rfl, ?_, ?_, ?_, ?_, ?_, ?_⟩ <;> rfl

/-- C2 counterexample: when the audit append fails after the task update
commits, the operation does NOT succeed from the caller's perspective —
`Activity.log` is awaited with no catch, so the service rejects (here: the
result is an error even though the retitled task is persisted). -/
theorem claim_C2_audit_cex :
    (TaskService.updateTask cDb 10 cPatchTitle 2 false).2.isOk = false
    ∧ ((TaskService.updateTask cDb 10 cPatchTitle 2 false).1.tasks.map
        TaskDoc.title) = ["new"] := by
  exact ⟨rfl, rfl⟩

/-- C2 amended: if the primary task update commits and the Activity append
fails, the mutation is NOT rolled back (the patched task stays in the store
and no audit record is added), but the audit failure IS surfaced as the
operation's failure: `updateTask` returns the audit error. -/
theorem claim_C2_audit_amended (db : AppDb) (taskId : TaskId) (u : TaskPatch)
    (userId : UserId) (task : TaskDoc)
    (hfind : db.tasks.find? (fun t => t.id == taskId) = some task) :
    (TaskService.updateTask db taskId u userId false).1.tasks
      = db.tasks.map (fun t => if t.id == taskId then applyPatch t u else t)
    ∧ (TaskService.updateTask db taskId u userId false).1.activities
      = db.activities
    ∧ (TaskService.updateTask db taskId u userId false).2
      = .error (ApiError.internal "Activity insert failed") := by
  simp [TaskService.updateTask, hfind, activityLog]

/-- C2 witness: the amended theorem applied to the concrete store `cDb`. -/
theorem claim_C2_audit_amended_witness :
    (TaskService.updateTask cDb 10 cPatchTitle 2 false).1.tasks
      = cDb.tasks.map (fun t => if t.id == 10 then applyPatch t cPatchTitle else t)
    ∧ (TaskService.updateTask cDb 10 cPatchTitle 2 false).1.activities
      = cDb.activities
    ∧ (TaskService.updateTask cDb 10 cPatchTitle 2 false).2
      = .error (ApiError.internal "Activity insert failed") :=
  claim_C2_audit_amended cDb 10 cPatchTitle 2 cTask rfl

/-- C4 counterexample: user 2 has no resolved role in the private project of
`cTask`, yet `updateTask`, `deleteTask` and `getTaskById` all succeed —
task mutation and task read perform no project-role or visibility check. -/
theorem claim_C4_task_auth_cex :
    (TaskService.updateTask cDb 10 cPatchTitle 2 true).2.isOk = true
    ∧ (TaskService.deleteTask cDb 10 2 true).2.isOk = true
    ∧ TaskService.getTaskById cDb 10 2 = .ok cTask
    ∧ cProjPriv.getMemberRole 2 = none
    ∧ cProjPriv.visibility = .priv
    ∧ cTask.project = cProjPriv.id := by
  refine ⟨?_, ?_, ?_, ?_, ?_, ?_⟩ <;> rfl

/-- C4 amended: only task creation is gated — the route requires at least
the `member` system role and the service denies non-members of a non-public
project — while `updateTask`, `getTaskById` and `deleteTask` succeed for
EVERY authenticated actor once the task exists. -/
theorem claim_C4_task_auth_amended :
    (∀ (db : AppDb) (input : CreateTaskInput) (newId : TaskId)
        (reporterId : UserId) (now : Time) (ok : Bool) (p : Project),
      db.projects.find? (fun q => q.id == input.projectId) = some p →
      p.isMember reporterId = false → p.visibility ≠ .pub →
      TaskService.createTask db input newId reporterId now ok
        = (db, .error (ApiError.forbidden "You do not have access to this project")))
    ∧ authorizeMinRole .member .viewer = false
    ∧ authorizeMinRole .member .member = true
    ∧ authorizeMinRole .member .admin = true
    ∧ (∀ (db : AppDb) (taskId : TaskId) (u : TaskPatch) (userId : UserId)
        (task : TaskDoc),
      db.tasks.find? (fun t => t.id == taskId) = some task →
      (TaskService.updateTask db taskId u userId true).2.isOk = true)
    ∧ (∀ (db : AppDb) (taskId : TaskId) (userId : UserId) (task : TaskDoc),
      db.tasks.find? (fun t => t.id == taskId) = some task →
      TaskService.getTaskById db taskId userId = .ok task)
    ∧ (∀ (db : AppDb) (taskId : TaskId) (userId : UserId) (task : TaskDoc),
      db.tasks.find? (fun t => t.id == taskId) = some task →
      (TaskService.deleteTask db taskId userId true).2.isOk = true) := by
  refine ⟨?_, rfl, rfl, rfl, ?_, ?_, ?_⟩
  · intro db input newId reporterId now ok p hfind hmem hvis
    simp [TaskService.createTask, hfind, hmem, hvis]
  · intro db taskId u userId task hfind
    simp [TaskService.updateTask, hfind, activityLog, Except.isOk, Except.toBool]
  · intro db taskId userId task hfind
    simp [TaskService.getTaskById, hfind]
  · intro db taskId userId task hfind
    simp [TaskService.deleteTask, hfind, activityLog, Except.isOk, Except.toBool]

/-- C4 witness: the amended theorem applied to concrete stores — creation by
the roleless user 2 on the private project is forbidden, while user 2 can
update, read and delete the existing task. -/
theorem claim_C4_task_auth_amended_witness :
    TaskService.createTask cDb (stdInput 1) 50 2 0 true
      = (cDb, .error (ApiError.forbidden "You do not have access to this project"))
    ∧ (TaskService.updateTask cDb 10 cPatchTitle 2 true).2.isOk = true
    ∧ TaskService.getTaskById cDb 10 2 = .ok cTask
    ∧ (TaskService.deleteTask cDb 10 2 true).2.isOk = true := by
  refine ⟨?_, ?_, ?_, ?_⟩
  · exact claim_C4_task_auth_amended.1 cDb (stdInput 1) 50 2 0 true cProjPriv
      rfl rfl (by decide)
  · exact claim_C4_task_auth_amended.2.2.2.2.1 cDb 10 cPatchTitle 2 cTask rfl
  · exact claim_C4_task_auth_amended.2.2.2.2.2.1 cDb 10 2 cTask rfl
  · exact claim_C4_task_auth_amended.2.2.2.2.2.2 cDb 10 2 cTask rfl

/-- C6 counterexample: when the viewer member 2 tries to remove (or re-role)
the project owner, the permission gate runs first and the failure is
`Forbidden` (403), not `BadRequest` (400) as the claim states for every
actor. -/
theorem claim_C6_owner_protection_cex :
    errStatus (ProjectService.removeMember cProjDb 1 1 2 true).2 = some 403
    ∧ ¬ errStatus (ProjectService.removeMember cProjDb 1 1 2 true).2 = some 400
    ∧ errStatus (ProjectService.updateMemberRole cProjDb 1 1 .member 2 true).2
        = some 403
    ∧ ¬ errStatus (ProjectService.updateMemberRole cProjDb 1 1 .member 2 true).2
        = some 400 := by
  refine ⟨rfl, by decide, rfl, by decide⟩

/-- C6 amended: the owner can never be removed from the members list nor have
their role changed — both operations always fail and leave the store
untouched — but the error is `BadRequest` only when the actor passes the
permission gate (`removeMember`: actor is the owner or a stored admin;
`updateMemberRole`: actor is the owner) and `Forbidden` otherwise. -/
theorem claim_C6_owner_protection_amended :
    (∀ (db : AppDb) (projectId : ProjectId) (actorId : UserId) (ok : Bool)
        (p : Project),
      db.projects.find? (fun q => q.id == projectId) = some p →
      ProjectService.removeMember db projectId p.owner actorId ok
        = (db, .error
            (if p.owner == actorId || p.getMemberRole actorId == some .admin then
              ApiError.badRequest "Cannot remove the project owner"
            else
              ApiError.forbidden "Only project owner or admins can remove members")))
    ∧ (∀ (db : AppDb) (projectId : ProjectId) (newRole : MemberRole)
        (actorId : UserId) (ok : Bool) (p : Project),
      db.projects.find? (fun q => q.id == projectId) = some p →
      ProjectService.updateMemberRole db projectId p.owner newRole actorId ok
        = (db, .error
            (if p.owner == actorId then
              ApiError.badRequest "Cannot change the project owner role"
            else
              ApiError.forbidden "Only the project owner can change member roles"))) := by
  constructor
  · intro db projectId actorId ok p hfind
    simp only [ProjectService.removeMember, hfind]
    by_cases howner : p.owner = actorId
    · simp [howner]
    · by_cases hadmin : p.getMemberRole actorId = some .admin
      · simp [howner, hadmin, Ne.symm howner]
      · simp [howner, hadmin, Ne.symm howner]
  · intro db projectId newRole actorId ok p hfind
    simp only [ProjectService.updateMemberRole, hfind]
    by_cases howner : p.owner = actorId
    · simp [howner]
    · simp [howner]

/-- C6 witness: the amended theorem applied to `cProjDb` — the owner acting
on themselves gets 400; the viewer member 2 gets 403. -/
theorem claim_C6_owner_protection_amended_witness :
    ProjectService.removeMember cProjDb 1 1 1 true
      = (cProjDb, .error (ApiError.badRequest "Cannot remove the project owner"))
    ∧ ProjectService.updateMemberRole cProjDb 1 1 .member 2 true
      = (cProjDb, .error
          (ApiError.forbidden "Only the project owner can change member roles")) := by
  constructor
  · have h := claim_C6_owner_protection_amended.1 cProjDb 1 1 true cOwnedProj rfl
    simpa using h
  · have h := claim_C6_owner_protection_amended.2 cProjDb 1 .member 2 true
      cOwnedProj rfl
    simpa using h

theorem map_role_update_untouched {t : List UserRec} {userId : UserId}
    {newRole : SystemRole} (h : ∀ x ∈ t, (x.id == userId) = false) :
    t.map (fun x => if x.id == userId then { x with role := newRole } else x)
      = t := by
  induction t with
  | nil => rfl
  | cons hd tl ih =>
    simp only [List.map_cons, h hd (List.mem_cons_self hd tl), Bool.false_eq_true,
      if_false, List.cons.injEq, true_and]
    exact ih fun x hx => h x (List.mem_cons_of_mem hd hx)

theorem mem_active_admin_pos {t : List UserRec} {u : UserRec} (hu : u ∈ t)
    (hadm : u.role = .admin) (hact : u.isActive = true) :
    1 ≤ countActiveAdmins t := by
  have : u ∈ t.filter (fun x => x.isActive && x.role == .admin) :=
    List.mem_filter.mpr ⟨hu, by simp [hadm, hact]⟩
  have hne : t.filter (fun x => x.isActive && x.role == .admin) ≠ [] :=
    List.ne_nil_of_mem this
  have := List.length_pos.mpr hne
  simpa [countActiveAdmins] using this

theorem countActiveAdmins_demote {users : List UserRec} {userId : UserId}
    {u : UserRec} {newRole : SystemRole}
    (hnd : (users.map UserRec.id).Nodup)
    (hfind : users.find? (fun x => x.id == userId) = some u)
    (hadm : u.role = .admin) (hact : u.isActive = true)
    (hnr : newRole ≠ .admin) :
    countActiveAdmins
      (users.map (fun x => if x.id == userId then { x with role := newRole } else x))
      = countActiveAdmins users - 1 := by
  induction users with
  | nil => cases hfind
  | cons hd tl ih =>
    rw [List.find?_cons] at hfind
    by_cases hh : (hd.id == userId) = true
    · simp only [hh] at hfind
      obtain rfl : hd = u := by injection hfind
      have hid : hd.id = userId := by simpa using hh
      have htl : ∀ x ∈ tl, (x.id == userId) = false := by
        intro x hx
        have hnotin : hd.id ∉ tl.map UserRec.id := (List.nodup_cons.mp hnd).1
        simp only [beq_eq_false_iff_ne, ne_eq]
        intro hc
        apply hnotin
        have hmem := List.mem_map_of_mem UserRec.id hx
        rw [hid, ← hc]
        exact hmem
      simp only [List.map_cons, hh, if_pos, map_role_update_untouched htl]
      have hdropped :
          ((({ hd with role := newRole } : UserRec)).isActive &&
            ({ hd with role := newRole } : UserRec).role == SystemRole.admin) = false := by
        simp [hnr]
      have hkept : (hd.isActive && hd.role == SystemRole.admin) = true := by
        simp [hadm, hact]
      simp only [countActiveAdmins, List.filter_cons, hdropped, hkept,
        Bool.false_eq_true, if_false, if_pos, List.length_cons]
      omega
    · have hbf : (hd.id == userId) = false := by
        simpa using hh
      simp only [hbf] at hfind
      have htlpos : 1 ≤ countActiveAdmins tl := by
        have hmem : u ∈ tl := List.mem_of_find?_eq_some hfind
        exact mem_active_admin_pos hmem hadm hact
      have ihr := ih (List.nodup_cons.mp hnd).2 hfind
      simp only [List.map_cons, hbf, Bool.false_eq_true, if_false]
      simp only [countActiveAdmins, List.filter_cons] at ihr ⊢
      by_cases hc : (hd.isActive && hd.role == SystemRole.admin) = true
      · simp only [hc, if_pos, List.length_cons]
        simp only [countActiveAdmins] at ihr htlpos
        omega
      · simp only [Bool.not_eq_true] at hc
        simp only [hc, Bool.false_eq_true, if_false]
        simpa [countActiveAdmins] using ihr

/-- C5 counterexample: demoting the only active admin is rejected with
`BadRequest` (400), not `Conflict` (409) as the claim states. -/
theorem claim_C5_last_admin_cex :
    errStatus (UserService.updateRole cAdminDb 1 .member 1 true).2 = some 400
    ∧ ¬ errStatus (UserService.updateRole cAdminDb 1 .member 1 true).2 = some 409
    ∧ errStatus (UserService.deactivateUser cAdminDb 1 1 true).2 = some 400
    ∧ ¬ errStatus (UserService.deactivateUser cAdminDb 1 1 true).2 = some 409 := by
  refine ⟨rfl, by decide, rfl, by decide⟩

/-- C5 amended: with exactly one active admin, demoting or deactivating an
admin is rejected — with `BadRequest` (400), not `Conflict` — and the store
is left unchanged; with two or more active admins, demoting one of them
succeeds and at least one active admin remains. -/
theorem claim_C5_last_admin_amended :
    (∀ (db : AppDb) (userId : UserId) (newRole : SystemRole) (actorId : UserId)
        (ok : Bool) (u : UserRec),
      db.users.find? (fun x => x.id == userId) = some u →
      u.role = .admin → newRole ≠ .admin → countActiveAdmins db.users = 1 →
      UserService.updateRole db userId newRole actorId ok
        = (db, .error (ApiError.badRequest "Cannot demote the last admin user")))
    ∧ (∀ (db : AppDb) (userId : UserId) (actorId : UserId) (ok : Bool)
        (u : UserRec),
      db.users.find? (fun x => x.id == userId) = some u →
      u.role = .admin → countActiveAdmins db.users = 1 →
      UserService.deactivateUser db userId actorId ok
        = (db, .error (ApiError.badRequest "Cannot deactivate the last admin user")))
    ∧ (∀ (db : AppDb) (userId : UserId) (newRole : SystemRole) (actorId : UserId)
        (u : UserRec),
      (db.users.map UserRec.id).Nodup →
      db.users.find? (fun x => x.id == userId) = some u →
      u.role = .admin → u.isActive = true → newRole ≠ .admin →
      2 ≤ countActiveAdmins db.users →
      (UserService.updateRole db userId newRole actorId true).2.isOk = true
      ∧ 1 ≤ countActiveAdmins
          (UserService.updateRole db userId newRole actorId true).1.users) := by
  refine ⟨?_, ?_, ?_⟩
  · intro db userId newRole actorId ok u hfind hadm hnr hcount
    have hguard : jsLeqOpt (countByRoleAdmin db.users) 1 = true := by
      simp only [countByRoleAdmin, countActiveAdmins] at hcount ⊢
      simp [hcount, jsLeqOpt]
    simp [UserService.updateRole, hfind, hadm, hnr, hguard]
  · intro db userId actorId ok u hfind hadm hcount
    have hguard : jsLeqOpt (countByRoleAdmin db.users) 1 = true := by
      simp only [countByRoleAdmin, countActiveAdmins] at hcount ⊢
      simp [hcount, jsLeqOpt]
    simp [UserService.deactivateUser, hfind, hadm, hguard]
  · intro db userId newRole actorId u hnd hfind hadm hact hnr hcount
    have hguard : jsLeqOpt (countByRoleAdmin db.users) 1 = false := by
      simp only [countByRoleAdmin, countActiveAdmins] at hcount ⊢
      rcases hc : (db.users.filter (fun x => x.isActive && x.role == .admin)).length
        with _ | c
      · omega
      · simp only [hc] at hcount
        simp [jsLeqOpt, hc]
        omega
    have hnew := countActiveAdmins_demote hnd hfind hadm hact hnr
    constructor
    · simp [UserService.updateRole, hfind, hguard, activityLog, Except.isOk,
        Except.toBool]
    · have hstate :
          (UserService.updateRole db userId newRole actorId true).1.users
            = db.users.map (fun x =>
                if x.id == userId then { x with role := newRole } else x) := by
        simp [UserService.updateRole, hfind, hguard, activityLog]
      rw [hstate, hnew]
      omega

/-- C5 witness: the amended theorem applied to the one-admin and two-admin
stores. -/
theorem claim_C5_last_admin_amended_witness :
    UserService.updateRole cAdminDb 1 .member 9 true
      = (cAdminDb, .error (ApiError.badRequest "Cannot demote the last admin user"))
    ∧ UserService.deactivateUser cAdminDb 1 9 true
      = (cAdminDb, .error (ApiError.badRequest "Cannot deactivate the last admin user"))
    ∧ (UserService.updateRole cTwoAdminDb 1 .member 9 true).2.isOk = true
    ∧ 1 ≤ countActiveAdmins
        (UserService.updateRole cTwoAdminDb 1 .member 9 true).1.users := by
  refine ⟨?_, ?_, ?_, ?_⟩
  · exact claim_C5_last_admin_amended.1 cAdminDb 1 .member 9 true
      { id := 1, role := .admin, isActive := true } rfl rfl (by decide) (by decide)
  · exact claim_C5_last_admin_amended.2.1 cAdminDb 1 9 true
      { id := 1, role := .admin, isActive := true } rfl rfl (by decide)
  · exact (claim_C5_last_admin_amended.2.2 cTwoAdminDb 1 .member 9
      { id := 1, role := .admin, isActive := true } (by decide) rfl rfl rfl
      (by decide) (by decide)).1
  · exact (claim_C5_last_admin_amended.2.2 cTwoAdminDb 1 .member 9
      { id := 1, role := .admin, isActive := true } (by decide) rfl rfl rfl
      (by decide) (by decide)).2

theorem createdTasks_filter (pid : ProjectId) (idBase : Nat) (key : String)
    (now : Time) (l : List Nat) :
    ((l.map (mkCreatedTask pid idBase key now)).filter
        (fun t => t.project == pid))
      = l.map (mkCreatedTask pid idBase key now) := by
  apply List.filter_eq_self.mpr
  intro t ht
  obtain ⟨i, _, rfl⟩ := List.mem_map.mp ht
  simp [mkCreatedTask]

theorem createN_spec (pid : ProjectId) (key : String) (ownerId : UserId)
    (idBase : Nat) (now : Time) :
    ∀ n, createN pid idBase ownerId now (freshDb pid key ownerId) n =
      { users := []
        projects := [{ freshProj pid key ownerId with taskCount := (n : Int) }]
        tasks := (List.range n).map (mkCreatedTask pid idBase key now)
        activities := (List.range n).reverse.map
          (mkCreateActivity pid idBase ownerId)
        comments := [] } := by
  intro n
  induction n with
  | zero => rfl
  | succ n ih =>
    rw [createN, ih]
    have hfilter :
        (((List.range n).map (mkCreatedTask pid idBase key now)).filter
            (fun t => t.project == pid))
          = (List.range n).map (mkCreatedTask pid idBase key now) :=
      createdTasks_filter pid idBase key now (List.range n)
    simp only [TaskService.createTask, stdInput, freshProj, List.find?_cons,
      beq_self_eq_true, Project.isMember, Bool.true_or, not_true_eq_false,
      false_and, if_false, hfilter, List.length_map, List.length_range,
      activityLog, if_true, trackCompletion, mkCreatedTask, mkCreateActivity,
      List.range_succ, List.map_append, List.reverse_append, List.map_cons,
      List.map_nil, List.reverse_cons, List.map_map]
    constructor

theorem find?_createdTask (pid : ProjectId) (idBase : Nat) (key : String)
    (now : Time) {n : Nat} (h : 2 ≤ n) :
    ((List.range n).map (mkCreatedTask pid idBase key now)).find?
        (fun t => t.id == idBase + 1)
      = some (mkCreatedTask pid idBase key now 1) := by
  obtain ⟨m, rfl⟩ : ∃ m, n = m + 2 := ⟨n - 2, by omega⟩
  rw [show m + 2 = (m + 1) + 1 from rfl, List.range_succ_eq_map,
    List.range_succ_eq_map]
  have h0 : ((mkCreatedTask pid idBase key now 0).id == idBase + 1) = false := by
    simp [mkCreatedTask]
  simp [List.find?_cons, h0, mkCreatedTask]

theorem filter_delete_created (pid : ProjectId) (idBase : Nat) (key : String)
    (now : Time) :
    ∀ l : List Nat,
      ((l.map (mkCreatedTask pid idBase key now)).filter
          (fun t => t.id != idBase + 1))
        = (l.filter (fun i => i != 1)).map (mkCreatedTask pid idBase key now) := by
  intro l
  induction l with
  | nil => rfl
  | cons i t ih =>
    by_cases hi : i = 1
    · subst hi
      simp only [List.map_cons, List.filter_cons, mkCreatedTask]
      simpa [mkCreatedTask] using ih
    · have h1 : (idBase + i != idBase + 1) = true := by
        simp only [bne_iff_ne, ne_eq]
        omega
      have h2 : (i != 1) = true := by simp [hi]
      simp only [List.map_cons, List.filter_cons, mkCreatedTask, h1, h2, if_pos,
        List.map_cons]
      simpa [mkCreatedTask] using ih

theorem length_range_filter_ne_one :
    ∀ n, 2 ≤ n → ((List.range n).filter (fun i => i != 1)).length = n - 1 := by
  intro n
  induction n with
  | zero => omega
  | succ n ih =>
    intro h
    by_cases h2 : 2 ≤ n
    · rw [List.range_succ, List.filter_append]
      have hn : (n != 1) = true := by
        simp only [bne_iff_ne, ne_eq]
        omega
      simp only [List.filter_cons, hn, if_pos, List.filter_nil,
        List.length_append, ih h2, List.length_cons, List.length_nil]
      omega
    · have : n = 1 := by omega
      subst this
      rfl

/-- C1 counterexample: in a fresh project with key `"ABC"`, create two tasks
(`ABC-1`, `ABC-2`), delete `ABC-2`, then create another task: the pre-save
hook recounts the live documents (now 1) and assigns `ABC-2` again — a
reused number — not `ABC-3` (= `ABC-(N+1)` for `N = 2`) as the claim
states. -/
theorem claim_C1_numbering_cex :
    ((TaskService.createTask
        (TaskService.deleteTask
          (createN 1 100 7 0 (freshDb 1 "ABC" 7) 2) 101 7 true).1
        (stdInput 1) 102 7 0 true).2).map TaskDoc.taskNumber
      = .ok "ABC-2"
    ∧ (TaskService.deleteTask
        (createN 1 100 7 0 (freshDb 1 "ABC" 7) 2) 101 7 true).2.isOk = true
    ∧ ((createN 1 100 7 0 (freshDb 1 "ABC" 7) 2).tasks.map TaskDoc.taskNumber)
      = ["ABC-1", "ABC-2"]
    ∧ ("ABC-2" : String) ≠ "ABC-3" := by
  refine ⟨rfl, rfl, rfl, by decide⟩

theorem deleteCreated_state (pid : ProjectId) (key : String) (ownerId : UserId)
    (idBase : Nat) (now : Time) {n : Nat} (h2 : 2 ≤ n) :
    (TaskService.deleteTask
        (createN pid idBase ownerId now (freshDb pid key ownerId) n)
        (idBase + 1) ownerId true).1
      = { users := []
          projects := [{ freshProj pid key ownerId with
            taskCount := (n : Int) - 1 }]
          tasks := ((List.range n).filter (fun i => i != 1)).map
            (mkCreatedTask pid idBase key now)
          activities := ⟨.taskDelete, ownerId, "task", idBase + 1, some pid⟩ ::
            (List.range n).reverse.map (mkCreateActivity pid idBase ownerId)
          comments := [] } := by
  rw [createN_spec]
  have hfind := find?_createdTask pid idBase key now h2
  have hfilter := filter_delete_created pid idBase key now (List.range n)
  simp only [TaskService.deleteTask, hfind, hfilter, mkCreatedTask, freshProj,
    List.find?_cons, beq_self_eq_true, if_pos, activityLog, if_true,
    List.map_cons, List.map_nil]

/-- C1 amended: creating `N` tasks sequentially in a fresh project with key
`key` yields exactly the numbers `key-1 ... key-N`, in order and without
duplicates; but because the sequence is re-derived from the live per-project
document count, after deleting the task numbered `key-2` the next creation
is numbered `key-N` — a previously assigned number — not `key-(N+1)`. -/
theorem claim_C1_numbering_amended (pid : ProjectId) (key : String)
    (ownerId : UserId) (idBase : Nat) (now : Time) (n : Nat) :
    ((createN pid idBase ownerId now (freshDb pid key ownerId) n).tasks.map
        TaskDoc.taskNumber)
      = (List.range n).map (fun i => mkTaskNumber key (i + 1))
    ∧ ((createN pid idBase ownerId now (freshDb pid key ownerId) n).tasks.map
        TaskDoc.taskNumber).Nodup
    ∧ (2 ≤ n →
      ((TaskService.createTask
          (TaskService.deleteTask
            (createN pid idBase ownerId now (freshDb pid key ownerId) n)
            (idBase + 1) ownerId true).1
          (stdInput pid) (idBase + n) ownerId now true).2).map TaskDoc.taskNumber
        = .ok (mkTaskNumber key n))
    ∧ mkTaskNumber key n ≠ mkTaskNumber key (n + 1) := by
  have hinj : Function.Injective (fun i : Nat => mkTaskNumber key (i + 1)) := by
    intro a b hab
    have := mkTaskNumber_injective key hab
    omega
  have hmap :
      ((createN pid idBase ownerId now (freshDb pid key ownerId) n).tasks.map
        TaskDoc.taskNumber)
        = (List.range n).map (fun i => mkTaskNumber key (i + 1)) := by
    rw [createN_spec]
    simp only [List.map_map]
    rfl
  refine ⟨hmap, ?_, ?_, ?_⟩
  · rw [hmap]
    exact (List.nodup_range n).map hinj
  · intro h2
    rw [deleteCreated_state pid key ownerId idBase now h2]
    have hfilter := createdTasks_filter pid idBase key now
      ((List.range n).filter (fun i => i != 1))
    have hlen : (((List.range n).filter (fun i => i != 1)).map
        (mkCreatedTask pid idBase key now)).length = n - 1 := by
      rw [List.length_map, length_range_filter_ne_one n h2]
    simp only [TaskService.createTask, stdInput, freshProj, List.find?_cons,
      beq_self_eq_true, Project.isMember, Bool.true_or, not_true_eq_false,
      false_and, if_false, hfilter, hlen, activityLog, if_true]
    have hn : n - 1 + 1 = n := by omega
    simp [hn, trackCompletion, Except.map]
  · intro hcontra
    have := mkTaskNumber_injective key hcontra
    omega

/-- C1 witness: the amended theorem instantiated at the concrete run of the
counterexample (`N = 2`, key `"ABC"`). -/
theorem claim_C1_numbering_amended_witness :
    ((createN 1 100 7 0 (freshDb 1 "ABC" 7) 2).tasks.map TaskDoc.taskNumber)
      = (List.range 2).map (fun i => mkTaskNumber "ABC" (i + 1))
    ∧ ((TaskService.createTask
        (TaskService.deleteTask
          (createN 1 100 7 0 (freshDb 1 "ABC" 7) 2) 101 7 true).1
        (stdInput 1) 102 7 0 true).2).map TaskDoc.taskNumber
      = .ok (mkTaskNumber "ABC" 2)
    ∧ mkTaskNumber "ABC" 2 ≠ mkTaskNumber "ABC" 3 := by
  have h := claim_C1_numbering_amended 1 "ABC" 7 100 0 2
  exact ⟨h.1, by simpa using h.2.2.1 (by decide), h.2.2.2⟩
